import Mathlib

/-!
Shallow embedding of the embedding/retrieval core of the synapses.ai
backend (`backend/utils/utils.py`, `backend/utils/vectors.py`,
`backend/utils/chatbot.py`, `backend/routers/gen_summary.py`,
`backend/routers/ingest.py`, `backend/routers/chat_with_kb.py`),
together with theorems settling the spec claims about it.

Text is modelled as `List Char` (Python `str` as a character sequence),
floats as `ℚ` (exact arithmetic for the mean-pooling algebra), and
fallible code as `Except String`.
-/

namespace Synapses

/-! ## Chunker (utils.get_embedding, lines 237-260)

`chunks = [text[i : i + max_chunk_size] for i in range(0, len(text), max_chunk_size)]`
is transcribed literally: `range(0, L, m)` enumerates `k*m` for
`k < ⌈L/m⌉`, and `text[i : i + m]` is `(text.drop i).take m`. -/

/-- The chunk list built by the Python list comprehension
`[text[i:i+m] for i in range(0, len(text), m)]`. -/
def sliceChunks (text : List Char) (m : Nat) : List (List Char) :=
  (List.range ((text.length + m - 1) / m)).map (fun k => (text.drop (k * m)).take m)

/-- Recursive characterization of `sliceChunks`: peel `m` characters at a
time off the front. -/
def chunksRec (text : List Char) (m : Nat) : List (List Char) :=
  if h : text = [] ∨ m = 0 then []
  else text.take m :: chunksRec (text.drop m) m
termination_by text.length
decreasing_by
  push_neg at h
  obtain ⟨ht, hm⟩ := h
  have : 0 < text.length := List.length_pos.mpr ht
  simp only [List.length_drop]
  omega

/-- The sequence of embedding requests `get_embedding` issues for a given
text: one request for the whole text when it fits in a chunk, otherwise one
request per slice. -/
def embeddingRequests (text : List Char) (max_chunk_size : Nat) : List (List Char) :=
  if text.length ≤ max_chunk_size then [text]
  else sliceChunks text max_chunk_size

lemma chunksRec_nil (m : Nat) : chunksRec [] m = [] := by
  rw [chunksRec]; simp

lemma chunksRec_cons (text : List Char) (m : Nat) (ht : text ≠ []) (hm : m ≠ 0) :
    chunksRec text m = text.take m :: chunksRec (text.drop m) m := by
  rw [chunksRec]; simp [ht, hm]

lemma ceilDiv_succ (L m : Nat) (hm : 0 < m) (hL : 0 < L) :
    (L + m - 1) / m = (L - m + m - 1) / m + 1 := by
  rcases le_or_lt L m with h | h
  · have h1 : L + m - 1 = (L - 1) + m := by omega
    have h2 : L - m = 0 := by omega
    rw [h1, h2, Nat.add_div_right _ hm, Nat.div_eq_of_lt (by omega)]
    have h3 : 0 + m - 1 = m - 1 := by omega
    rw [h3, Nat.div_eq_of_lt (by omega)]
  · have h1 : L + m - 1 = (L - 1) + m := by omega
    have h2 : L - m + m - 1 = L - 1 := by omega
    rw [h1, h2, Nat.add_div_right _ hm]

lemma sliceChunks_nil (m : Nat) (hm : 0 < m) : sliceChunks [] m = [] := by
  have h : (([] : List Char).length + m - 1) / m = 0 := by
    simp only [List.length_nil]
    exact Nat.div_eq_of_lt (by omega)
  unfold sliceChunks
  rw [h, List.range_zero, List.map_nil]

lemma sliceChunks_eq_chunksRec (m : Nat) (hm : 0 < m) (text : List Char) :
    sliceChunks text m = chunksRec text m := by
  have H : ∀ (L : Nat) (t : List Char), t.length = L →
      sliceChunks t m = chunksRec t m := by
    intro L
    induction L using Nat.strong_induction_on with
    | _ L ih =>
      intro t hL
      by_cases ht : t = []
      · subst ht
        rw [sliceChunks_nil m hm, chunksRec_nil]
      · have hpos : 0 < t.length := List.length_pos.mpr ht
        have hdl : (t.drop m).length = t.length - m := List.length_drop m t
        rw [chunksRec_cons t m ht hm.ne']
        rw [sliceChunks, ceilDiv_succ t.length m hm hpos, List.range_succ_eq_map,
          List.map_cons, List.map_map]
        congr 1
        · simp
        · rw [← ih (t.length - m) (by omega) (t.drop m) hdl]
          rw [sliceChunks, hdl]
          apply List.map_congr_left
          intro k _
          simp only [Function.comp_apply]
          have hmul : Nat.succ k * m = k * m + m := Nat.succ_mul k m
          rw [hmul, List.drop_drop]
          congr 2
          ring
  exact H text.length text rfl

lemma chunksRec_flatten (m : Nat) (hm : 0 < m) (text : List Char) :
    (chunksRec text m).flatten = text := by
  have H : ∀ (L : Nat) (t : List Char), t.length = L →
      (chunksRec t m).flatten = t := by
    intro L
    induction L using Nat.strong_induction_on with
    | _ L ih =>
      intro t hL
      by_cases ht : t = []
      · subst ht; rw [chunksRec_nil]; rfl
      · have hpos : 0 < t.length := List.length_pos.mpr ht
        have hdl : (t.drop m).length = t.length - m := List.length_drop m t
        rw [chunksRec_cons t m ht hm.ne', List.flatten_cons,
          ih (t.length - m) (by omega) (t.drop m) hdl, List.take_append_drop]
  exact H text.length text rfl

lemma sliceChunks_flatten (m : Nat) (hm : 0 < m) (text : List Char) :
    (sliceChunks text m).flatten = text := by
  rw [sliceChunks_eq_chunksRec m hm, chunksRec_flatten m hm]

lemma sliceChunks_length (text : List Char) (m : Nat) :
    (sliceChunks text m).length = (text.length + m - 1) / m := by
  simp [sliceChunks]

lemma sliceChunks_get (text : List Char) (m : Nat) (k : Nat)
    (hk : k < (sliceChunks text m).length) :
    (sliceChunks text m).get ⟨k, hk⟩ = (text.drop (k * m)).take m := by
  simp [sliceChunks]

/-! ## Mean pooling across chunks (utils.get_embedding, lines 262-278)

After all chunks have been embedded, the code checks that the per-chunk
vectors agree in length, then accumulates an elementwise sum and divides
each coordinate by the number of chunks. -/

/-- The cross-chunk aggregation step of `get_embedding`: verify that all
chunk embeddings share one length, then form the elementwise mean.
Coordinate `i` of the result is `(Σ over chunks of coordinate i) / #chunks`,
exactly the accumulate-then-divide loop of the source. -/
def aggregate_chunk_embeddings (embeddings : List (List ℚ)) : Except String (List ℚ) :=
  match embeddings.head? with
  | none => .error "no chunk embeddings"
  | some e0 =>
    let vector_length := e0.length
    if embeddings.all (fun e => e.length = vector_length) then
      .ok ((List.range vector_length).map
        (fun i => (embeddings.map (fun e => e.getD i 0)).sum / (embeddings.length : ℚ)))
    else .error "Mismatch in embedding lengths among chunks."

/-! ## Per-request embedding post-processing (utils.request_embedding, lines 209-235)

After extracting and flattening the raw response, the code trims the
vector to a multiple of `expected_hidden_size`, then interprets it as one
vector, a stack of per-token vectors to be mean-pooled, or a dimension
error. -/

/-- Trimming step: if the flattened response length is not a multiple of
`expected_hidden_size`, drop the trailing remainder (with a logged
warning in the source). -/
def trimToMultiple (matrix : List ℚ) (expected_hidden_size : Nat) : List ℚ :=
  let remainder := matrix.length % expected_hidden_size
  if remainder ≠ 0 then matrix.take (matrix.length - remainder) else matrix

/-- Interpretation step after trimming: exactly one vector is returned as
is; a longer multiple is mean-pooled across the token axis; anything
shorter than `expected_hidden_size` raises a dimension error. -/
def interpretTrimmed (matrix : List ℚ) (expected_hidden_size : Nat) : Except String (List ℚ) :=
  if matrix.length = expected_hidden_size then .ok matrix
  else if expected_hidden_size < matrix.length then
    let num_tokens := matrix.length / expected_hidden_size
    .ok ((List.range expected_hidden_size).map
      (fun i => ((List.range num_tokens).map
        (fun j => matrix.getD (i + j * expected_hidden_size) 0)).sum / (num_tokens : ℚ)))
  else .error "Embedding dimension mismatch"

/-- The tail of `request_embedding`: trim, then interpret. -/
def processRawEmbedding (matrix : List ℚ) (expected_hidden_size : Nat) :
    Except String (List ℚ) :=
  interpretTrimmed (trimToMultiple matrix expected_hidden_size) expected_hidden_size

/-! ## Theorems for the chunker claims -/

/-- C2: `get_embedding` issues exactly one embedding request when
`len(text) ≤ max_chunk_size`, and otherwise exactly
`⌈len(text)/max_chunk_size⌉` requests over contiguous, non-overlapping
slices of `max_chunk_size` characters (last possibly shorter) whose
concatenation is the original text; a text of length
`2*max_chunk_size + 1` yields exactly the three slices
`[0,max)`, `[max,2max)`, `[2max,2max+1)`. -/
theorem get_embedding_request_structure (text : List Char) (m : Nat) (hm : 0 < m) :
    (text.length ≤ m → embeddingRequests text m = [text]) ∧
    (m < text.length →
      (embeddingRequests text m).length = (text.length + m - 1) / m ∧
      (∀ (k : Nat) (hk : k < (embeddingRequests text m).length),
        (embeddingRequests text m).get ⟨k, hk⟩ = (text.drop (k * m)).take m) ∧
      (embeddingRequests text m).flatten = text) ∧
    (text.length = 2 * m + 1 →
      embeddingRequests text m =
        [text.take m, (text.drop m).take m, (text.drop (2 * m)).take m]) := by
  refine ⟨fun hle => ?_, fun hgt => ?_, fun hL => ?_⟩
  · rw [embeddingRequests, if_pos hle]
  · have hreq : embeddingRequests text m = sliceChunks text m := by
      rw [embeddingRequests, if_neg (by omega)]
    rw [hreq]
    exact ⟨sliceChunks_length text m,
      fun k hk => sliceChunks_get text m k hk,
      sliceChunks_flatten m hm text⟩
  · have hgt : m < text.length := by omega
    have hcount : (text.length + m - 1) / m = 3 := by
      rw [hL]
      have h3 : 2 * m + 1 + m - 1 = 3 * m := by omega
      rw [h3, Nat.mul_div_cancel _ hm]
    rw [embeddingRequests, if_neg (by omega), sliceChunks, hcount]
    have hr3 : List.range 3 = [0, 1, 2] := by decide
    rw [hr3]
    simp [List.drop_zero]

/-- Witness for C2 at `text = "abcde"`, `max_chunk_size = 2`
(length `2*2+1`). -/
theorem get_embedding_request_structure_witness :
    (0 < 2) ∧
    (embeddingRequests ['a','b','c','d','e'] 2 =
      [['a','b'], ['c','d'], ['e']]) := by
  refine ⟨by decide, ?_⟩
  have h := (get_embedding_request_structure ['a','b','c','d','e'] 2 (by decide)).2.2
    (by decide)
  rw [h]
  decide

/-- C3: when every chunk embedding has the same length, the cross-chunk
aggregation of `get_embedding` is the elementwise arithmetic mean —
output coordinate `i` is the sum of coordinate `i` over all chunk
embeddings divided by the number of chunks — and in particular the two
equal-length embeddings `[1,2,3]` and `[3,2,1]` aggregate to `[2,2,2]`. -/
theorem aggregate_mean_pooling (embeddings : List (List ℚ)) (L : Nat)
    (hne : embeddings ≠ []) (hlen : ∀ e ∈ embeddings, e.length = L) :
    (∃ v : List ℚ, aggregate_chunk_embeddings embeddings = .ok v ∧
      v.length = L ∧
      ∀ i < L, v.getD i 0 =
        (embeddings.map (fun e => e.getD i 0)).sum / (embeddings.length : ℚ)) ∧
    aggregate_chunk_embeddings [[1, 2, 3], [3, 2, 1]] = .ok [2, 2, 2] := by
  constructor
  · obtain ⟨e0, rest, rfl⟩ := List.exists_cons_of_ne_nil hne
    have he0 : e0.length = L := hlen e0 (List.mem_cons_self e0 rest)
    have hall : (e0 :: rest).all (fun e => e.length = e0.length) = true := by
      rw [List.all_eq_true]
      intro e he
      simp only [decide_eq_true_eq]
      rw [hlen e he, he0]
    refine ⟨(List.range e0.length).map
      (fun i => ((e0 :: rest).map (fun e => e.getD i 0)).sum / ((e0 :: rest).length : ℚ)),
      ?_, ?_, ?_⟩
    · rw [aggregate_chunk_embeddings]
      simp only [List.head?_cons, hall, if_pos]
    · simp [he0]
    · intro i hi
      have hi' : i < ((List.range e0.length).map
          (fun i => ((e0 :: rest).map (fun e => e.getD i 0)).sum /
            ((e0 :: rest).length : ℚ))).length := by
        simpa [he0] using hi
      rw [List.getD_eq_getElem _ _ hi']
      simp
  · rw [aggregate_chunk_embeddings]
    norm_num
    rw [show List.range 3 = [0, 1, 2] from rfl]
    norm_num

/-- Witness for C3 at the two concrete embeddings `[1,2,3]` and `[3,2,1]`. -/
theorem aggregate_mean_pooling_witness :
    ([[1, 2, 3], [3, 2, 1]] : List (List ℚ)) ≠ [] ∧
    aggregate_chunk_embeddings [[1, 2, 3], [3, 2, 1]] = .ok [2, 2, 2] :=
  ⟨by simp, (aggregate_mean_pooling [[1, 2, 3], [3, 2, 1]] 3 (by simp)
    (by intro e he; fin_cases he <;> rfl)).2⟩

/-- C5: a flattened embedding response whose length is not a multiple of
`expected_hidden_size` has its trailing remainder trimmed before
interpretation; a raw vector of length 4100 with hidden size 4096 is
trimmed to exactly its first 4096 elements and accepted as a single
vector; a trimmed result strictly shorter than the hidden size fails
with a dimension error rather than being padded. -/
theorem request_embedding_trimming (matrix : List ℚ) (n : Nat) (hn : 0 < n) :
    (matrix.length % n ≠ 0 →
      trimToMultiple matrix n = matrix.take (matrix.length - matrix.length % n)) ∧
    (matrix.length = 4100 → n = 4096 →
      processRawEmbedding matrix n = .ok (matrix.take 4096)) ∧
    ((trimToMultiple matrix n).length < n →
      processRawEmbedding matrix n = .error "Embedding dimension mismatch") := by
  refine ⟨fun hrem => ?_, fun hlen hn4096 => ?_, fun hshort => ?_⟩
  · rw [trimToMultiple, if_pos hrem]
  · subst hn4096
    have hrem : matrix.length % 4096 = 4 := by rw [hlen]
    have htrim : trimToMultiple matrix 4096 = matrix.take 4096 := by
      rw [trimToMultiple, if_pos (by rw [hrem]; decide), hrem, hlen]
    have htlen : (matrix.take 4096).length = 4096 := by
      rw [List.length_take, hlen]
      omega
    rw [processRawEmbedding, htrim, interpretTrimmed, if_pos htlen]
  · rw [processRawEmbedding, interpretTrimmed,
      if_neg (by omega), if_neg (by omega)]

/-- Witness for C5 at a concrete 4100-long vector with hidden size 4096. -/
theorem request_embedding_trimming_witness :
    (0 < 4096) ∧
    processRawEmbedding (List.replicate 4100 (0 : ℚ)) 4096 =
      .ok ((List.replicate 4100 (0 : ℚ)).take 4096) :=
  ⟨by decide, (request_embedding_trimming (List.replicate 4100 (0 : ℚ)) 4096
    (by decide)).2.1 (by rw [List.length_replicate]) rfl⟩

/-! ## Vector store model (backend/utils/vectors.py)

A stored point carries an id, a vector and a payload; Python's
`payload.get(key)` is `Option`. The backend's similarity ranking for a
given query is abstracted by presenting the collection already in ranked
order; a filtered search returns the first `limit` ranked points passing
the exact-match filter (spec section 6 search contract). -/

/-- Payload of a stored point. -/
structure Payload where
  file_hash : Option String
  extracted_text : Option (List Char)
  filename : Option String
deriving DecidableEq

/-- A point stored in a collection. -/
structure Point where
  id : String
  vector : List ℚ
  payload : Payload
deriving DecidableEq

/-- Filtered search: the first `limit` ranked points whose
`payload.file_hash` exactly matches the requested hash. -/
def searchByHash (ranked : List Point) (file_hash : String) (limit : Nat) : List Point :=
  (ranked.filter (fun p => p.payload.file_hash = some file_hash)).take limit

/-- Parameters of a search request sent to the backend. -/
structure SearchCall where
  query_vector : List ℚ
  limit : Nat
  filter_key : String
  filter_value : String
deriving DecidableEq

/-- The search request issued by `get_extracted_text_from_qdrant`
(vectors.py lines 168-175): a dummy all-zeros query vector of the
configured size, `limit=1`, and an exact-match filter on `file_hash`. -/
def dedupSearchCall (file_hash : String) (vector_size : Nat) : SearchCall :=
  { query_vector := List.replicate vector_size 0
    limit := 1
    filter_key := "file_hash"
    filter_value := file_hash }

/-- `get_extracted_text_from_qdrant`: run the limit-1 filtered search;
return the first result's `extracted_text` when it is present and
non-empty (Python truthiness), else the empty string. Any backend
failure is caught, logged and degraded to the empty string, so the
function is total. -/
def get_extracted_text_from_qdrant (ranked : List Point) (file_hash : String)
    (backend_fails : Bool) : List Char :=
  if backend_fails then []
  else
    match (searchByHash ranked file_hash 1).head? with
    | none => []
    | some p =>
      if p.payload.extracted_text.getD [] ≠ [] then p.payload.extracted_text.getD []
      else []

/-- A stored point whose `extracted_text` is present but empty. -/
def pointEmptyText : Point :=
  { id := "p1", vector := [0]
    payload := { file_hash := some "abc", extracted_text := some []
                 filename := some "a.pdf" } }

/-- A stored point with the same hash and non-empty text `"hello"`. -/
def pointHello : Point :=
  { id := "p2", vector := [0]
    payload := { file_hash := some "abc"
                 extracted_text := some ['h', 'e', 'l', 'l', 'o']
                 filename := some "b.pdf" } }

/-- A collection whose backend ranking puts the empty-text point first. -/
def maskedStore : List Point := [pointEmptyText, pointHello]

/-- C4 counterexample: a point with hash `"abc"` and non-empty text
`"hello"` exists in the store, yet the lookup of `"abc"` returns the
empty string, because the limit-1 search surfaces only the higher-ranked
empty-text point. The claim's "returns the stored text when such a point
exists" is therefore false as stated. -/
theorem lookup_misses_existing_text :
    (∃ p ∈ maskedStore, p.payload.file_hash = some "abc" ∧
      p.payload.extracted_text = some ['h', 'e', 'l', 'l', 'o']) ∧
    get_extracted_text_from_qdrant maskedStore "abc" false = [] := by
  constructor
  · exact ⟨pointHello, by decide, by decide, by decide⟩
  · decide

/-- C4 (amended): the lookup returns the found point's stored text when
the limit-1 filtered search finds a point with non-empty
`extracted_text`; it returns the empty string when the search finds
nothing or the found point's text is empty or missing; and every
backend/transport failure degrades to the empty string — the function
is total and never raises. -/
theorem get_extracted_text_behavior (ranked : List Point) (h : String) :
    (get_extracted_text_from_qdrant ranked h true = []) ∧
    (searchByHash ranked h 1 = [] → get_extracted_text_from_qdrant ranked h false = []) ∧
    (∀ p, (searchByHash ranked h 1).head? = some p →
      (p.payload.extracted_text.getD [] = [] →
        get_extracted_text_from_qdrant ranked h false = []) ∧
      (∀ t, p.payload.extracted_text = some t → t ≠ [] →
        get_extracted_text_from_qdrant ranked h false = t)) := by
  refine ⟨rfl, fun hempty => ?_, fun p hp => ⟨fun hnil => ?_, fun t ht hne => ?_⟩⟩
  · rw [get_extracted_text_from_qdrant, if_neg (by simp), hempty]
    rfl
  · rw [get_extracted_text_from_qdrant, if_neg (by simp), hp]
    simp [hnil]
  · rw [get_extracted_text_from_qdrant, if_neg (by simp), hp]
    simp [ht, hne]

/-- Witness for C4 (amended) on a one-point store holding `"hello"`
under hash `"abc"`, plus a not-found lookup of `"xyz"`. -/
theorem get_extracted_text_behavior_witness :
    ((searchByHash [pointHello] "abc" 1).head? = some pointHello ∧
      pointHello.payload.extracted_text = some ['h', 'e', 'l', 'l', 'o'] ∧
      ['h', 'e', 'l', 'l', 'o'] ≠ ([] : List Char) ∧
      get_extracted_text_from_qdrant [pointHello] "abc" false =
        ['h', 'e', 'l', 'l', 'o']) ∧
    (searchByHash [pointHello] "xyz" 1 = [] ∧
      get_extracted_text_from_qdrant [pointHello] "xyz" false = []) := by
  constructor
  · refine ⟨by decide, by decide, by decide, ?_⟩
    exact ((get_extracted_text_behavior [pointHello] "abc").2.2 pointHello
      (by decide)).2 ['h', 'e', 'l', 'l', 'o'] (by decide) (by decide)
  · refine ⟨by decide, ?_⟩
    exact (get_extracted_text_behavior [pointHello] "xyz").2.1 (by decide)

/-- C10: the dedup lookup searches with `limit=1` and a dummy all-zeros
query vector, so it examines at most the single highest-ranked point
matching the `file_hash` filter; when that point has empty
`extracted_text`, the lookup returns the empty string even though
another stored point with the same hash holds non-empty text. -/
theorem dedup_lookup_examines_one_point (ranked : List Point) (h : String)
    (vector_size : Nat) :
    (dedupSearchCall h vector_size).limit = 1 ∧
    (dedupSearchCall h vector_size).query_vector = List.replicate vector_size 0 ∧
    searchByHash ranked h 1 =
      (ranked.filter (fun p => p.payload.file_hash = some h)).take 1 ∧
    (searchByHash ranked h 1).length ≤ 1 ∧
    (pointHello ∈ maskedStore ∧
      pointHello.payload.file_hash = some "abc" ∧
      pointHello.payload.extracted_text = some ['h', 'e', 'l', 'l', 'o'] ∧
      get_extracted_text_from_qdrant maskedStore "abc" false = []) := by
  refine ⟨rfl, rfl, rfl, ?_, by decide, by decide, by decide, by decide⟩
  calc (searchByHash ranked h 1).length
      ≤ 1 := by
        rw [searchByHash]
        exact (List.length_take_le 1 _).trans (le_refl 1)

/-! ## Upsert path (vectors.insert_embeddings, ingest.upsert_to_qdrant) -/

/-- A collection with its configured vector dimension and stored points. -/
structure QdrantCollection where
  dim : Nat
  points : List Point

/-- The `PointStruct` construction loop of `insert_embeddings`: id,
vector and payload are passed through unchanged. -/
def toPointStructs (points : List Point) : List Point :=
  points.map (fun p => { id := p.id, vector := p.vector, payload := p.payload })

/-- Backend upsert contract (spec sections 4.3 and 6, external
collaborator): insert-or-replace by id, rejecting the batch whenever any
vector's length disagrees with the collection's configured dimension. -/
def qdrant_upsert (c : QdrantCollection) (pts : List Point) :
    Except String QdrantCollection :=
  if pts.all (fun p => p.vector.length = c.dim) then
    .ok { c with
      points := c.points.filter (fun q => pts.all (fun p => p.id ≠ q.id)) ++ pts }
  else .error "DimensionMismatchError"

/-- `insert_embeddings`: build the point structs and upsert; a backend
failure is logged and re-raised, never swallowed or repaired. -/
def insert_embeddings (c : QdrantCollection) (points : List Point) :
    Except String QdrantCollection :=
  match qdrant_upsert c (toPointStructs points) with
  | .ok c2 => .ok c2
  | .error e => .error e

/-- The explicit dimension check in the ingest router's
`upsert_to_qdrant`: `if not embedding or len(embedding) != vector_size:
raise Exception(...)`. -/
def upsert_to_qdrant_dim_check (embedding : List ℚ) (vector_size : Nat) :
    Except String Unit :=
  if embedding = [] ∨ embedding.length ≠ vector_size then
    .error "Embedding dimension error"
  else .ok ()

/-- C8: an upsert whose batch contains a point with a wrong-length
vector fails loudly — `insert_embeddings` passes every point through
unchanged (no truncation, padding or coercion) and propagates the
backend's dimension rejection; the ingest router additionally raises its
own dimension error before ever calling the upsert. -/
theorem upsert_rejects_dimension_mismatch (c : QdrantCollection) (pts : List Point)
    (hbad : ∃ p ∈ pts, p.vector.length ≠ c.dim) :
    insert_embeddings c pts = .error "DimensionMismatchError" ∧
    toPointStructs pts = pts ∧
    (∀ (e : List ℚ) (v : Nat), e.length ≠ v →
      upsert_to_qdrant_dim_check e v = .error "Embedding dimension error") := by
  have hid : toPointStructs pts = pts := by
    unfold toPointStructs
    have : (fun p : Point => ({ id := p.id, vector := p.vector, payload := p.payload } : Point)) =
        fun p => p := by
      funext p; rfl
    rw [this, List.map_id']
  refine ⟨?_, hid, fun e v hev => ?_⟩
  · obtain ⟨p, hp, hlen⟩ := hbad
    rw [insert_embeddings, hid, qdrant_upsert, if_neg]
    intro hall
    rw [List.all_eq_true] at hall
    exact hlen (by simpa using hall p hp)
  · rw [upsert_to_qdrant_dim_check, if_pos (Or.inr hev)]

/-- Witness for C8: a dimension-3 collection rejects a point carrying a
length-2 vector. -/
theorem upsert_rejects_dimension_mismatch_witness :
    (∃ p ∈ [({ id := "q", vector := [1, 2], payload :=
        { file_hash := none, extracted_text := none, filename := none } } : Point)],
      p.vector.length ≠ 3) ∧
    insert_embeddings { dim := 3, points := [] }
      [{ id := "q", vector := [1, 2], payload :=
        { file_hash := none, extracted_text := none, filename := none } }] =
      .error "DimensionMismatchError" :=
  ⟨⟨_, List.mem_singleton.mpr rfl, by decide⟩,
    (upsert_rejects_dimension_mismatch { dim := 3, points := [] } _
      ⟨_, List.mem_singleton.mpr rfl, by decide⟩).1⟩

/-! ## Retrieval assembly (routers/chat_with_kb.py, lines 61-103) -/

/-- The `"\n\n"` separator of `"\n\n".join(retrieved_texts)`. -/
def contextSep : List Char := ['\n', '\n']

/-- The retrieved-texts list comprehension: in ranked order, the
non-empty `extracted_text` payloads of the search results. -/
def retrievedTexts (results : List Point) : List (List Char) :=
  (results.filter (fun p => p.payload.extracted_text.getD [] ≠ [])).map
    (fun p => p.payload.extracted_text.getD [])

/-- `combined_context`: the retrieved texts joined with the separator. -/
def combinedContext (results : List Point) : List Char :=
  List.intercalate contextSep (retrievedTexts results)

/-- Budget enforcement: tail-truncate the combined context to
`max_context_chars` when it is longer, recording whether the truncation
(and its logged warning) occurred. -/
def assembleContext (results : List Point) (max_context_chars : Nat) :
    List Char × Bool :=
  let combined := combinedContext results
  if max_context_chars < combined.length then
    (combined.take max_context_chars, true)
  else (combined, false)

/-- The fixed fallback answer returned on empty retrieval. -/
def insufficientContextAnswer : String :=
  "I'm not sure about that. Please contact support."

/-- The user-visible outcome of `chat_with_kb` after the vector search. -/
inductive KbResponse
  | fixedAnswer (answer : String)
  | streamGeneration (context : List Char)
deriving DecidableEq

/-- Response selection in `chat_with_kb`: zero search results
short-circuit to the fixed answer before any prompt is built; otherwise
the assembled context is streamed through the generation endpoint. -/
def chat_with_kb_response (results : List Point) (max_context_chars : Nat) :
    KbResponse :=
  if results.isEmpty then .fixedAnswer insufficientContextAnswer
  else .streamGeneration (assembleContext results max_context_chars).1

/-- Whether a response invokes the generation (completion) step. -/
def invokesGeneration : KbResponse → Bool
  | .fixedAnswer _ => false
  | .streamGeneration _ => true

lemma intercalate_pair (sep a b : List Char) :
    List.intercalate sep [a, b] = a ++ sep ++ b := by
  simp [List.intercalate, List.intersperse]

/-- C6: the assembled retrieval context is the retrieved texts joined in
ranked order with the separator, and whenever that concatenation exceeds
the character budget it is tail-truncated to exactly the budget with the
truncation warning recorded (and left untouched, warning-free,
otherwise). -/
theorem context_truncation (results : List Point) (budget : Nat) :
    combinedContext results = List.intercalate contextSep (retrievedTexts results) ∧
    (budget < (combinedContext results).length →
      (assembleContext results budget).1 = (combinedContext results).take budget ∧
      (assembleContext results budget).1.length = budget ∧
      (assembleContext results budget).2 = true) ∧
    ((combinedContext results).length ≤ budget →
      (assembleContext results budget).1 = combinedContext results ∧
      (assembleContext results budget).2 = false) := by
  refine ⟨rfl, fun hover => ?_, fun hunder => ?_⟩
  · have heq : assembleContext results budget =
        ((combinedContext results).take budget, true) := by
      simp only [assembleContext]
      rw [if_pos hover]
    rw [heq]
    refine ⟨rfl, ?_, rfl⟩
    rw [List.length_take]
    omega
  · have heq : assembleContext results budget = (combinedContext results, false) := by
      simp only [assembleContext]
      rw [if_neg (by omega : ¬ budget < (combinedContext results).length)]
    rw [heq]
    exact ⟨rfl, rfl⟩

/-- A retrieval result whose stored text is 5,000 `'a'` characters. -/
def kbPointA : Point :=
  { id := "k1", vector := [0]
    payload := { file_hash := some "h1"
                 extracted_text := some (List.replicate 5000 'a')
                 filename := some "a.pdf" } }

/-- A retrieval result whose stored text is 5,000 `'b'` characters. -/
def kbPointB : Point :=
  { id := "k2", vector := [0]
    payload := { file_hash := some "h2"
                 extracted_text := some (List.replicate 5000 'b')
                 filename := some "b.pdf" } }

lemma replicate_5000_ne_nil (c : Char) : List.replicate 5000 c ≠ ([] : List Char) := by
  intro hcon
  have hlen := congrArg List.length hcon
  rw [List.length_replicate, List.length_nil] at hlen
  omega

lemma retrievedTexts_example :
    retrievedTexts [kbPointA, kbPointB] =
      [List.replicate 5000 'a', List.replicate 5000 'b'] := by
  have hall : ∀ a ∈ [kbPointA, kbPointB],
      (fun p : Point => (p.payload.extracted_text.getD [] ≠ [] : Bool)) a = true := by
    intro a ha
    fin_cases ha
    · exact decide_eq_true (replicate_5000_ne_nil 'a')
    · exact decide_eq_true (replicate_5000_ne_nil 'b')
  rw [retrievedTexts, List.filter_eq_self.mpr hall]
  rfl

lemma combinedContext_example_length :
    (combinedContext [kbPointA, kbPointB]).length = 10002 := by
  rw [combinedContext, retrievedTexts_example, intercalate_pair]
  simp only [List.length_append, List.length_replicate]
  rfl

/-- Witness for C6: two retrieved texts totaling 10,000 characters with
a 4,000-character budget assemble to a context of exactly 4,000
characters with the truncation warning recorded. -/
theorem context_truncation_witness :
    4000 < (combinedContext [kbPointA, kbPointB]).length ∧
    (assembleContext [kbPointA, kbPointB] 4000).1.length = 4000 ∧
    (assembleContext [kbPointA, kbPointB] 4000).2 = true := by
  have hover : 4000 < (combinedContext [kbPointA, kbPointB]).length := by
    rw [combinedContext_example_length]; omega
  have h := (context_truncation [kbPointA, kbPointB] 4000).2.1 hover
  exact ⟨hover, h.2.1, h.2.2⟩

/-- C7: a knowledge-base query whose vector search returns zero results
gets the fixed "insufficient context" answer, and the generation step is
not invoked; conversely, only a non-empty result list ever reaches
generation. -/
theorem empty_retrieval_no_generation (budget : Nat) :
    chat_with_kb_response [] budget = .fixedAnswer insufficientContextAnswer ∧
    invokesGeneration (chat_with_kb_response [] budget) = false := by
  constructor <;> rfl

/-! ## Request-level effect traces (routers/gen_summary.py, routers/ingest.py)

Each router handler is modelled by the ordered list of externally visible
actions it performs, as a function of the branch conditions (dedup hit,
vision-model flag, validation outcome). -/

/-- The externally visible actions of a document-processing request. -/
inductive Act
  | validateFile
  | computeHash
  | dedupLookup
  | saveFile
  | extractText
  | decodeBytes
  | completionCall
  | embeddingCall
  | ensureCollection
  | upsertPoints
deriving DecidableEq

/-- Actions of `background_save_to_qdrant`: save the raw bytes, compute
the embedding (issuing embedding requests), ensure the collection,
upsert one point. -/
def background_save_acts : List Act :=
  [.saveFile, .embeddingCall, .ensureCollection, .upsertPoints]

/-- Action trace of the `/gen_summary` handler: validate, hash, dedup
lookup; on a miss, extract (or decode, for a vision model); generate the
summary; on a miss, launch the background save. On a hit the extraction
branch and the background task are both skipped. -/
def generate_file_summary_acts (cacheHit : Bool) (visionModel : Bool) : List Act :=
  [.validateFile, .computeHash, .dedupLookup] ++
  (if cacheHit then []
   else if visionModel then [.decodeBytes]
   else [.saveFile, .extractText]) ++
  [.completionCall] ++
  (if cacheHit then [] else background_save_acts)

/-- Actions of the ingest router's `ingest_file` helper: hash, save,
extract. -/
def ingest_file_acts : List Act := [.computeHash, .saveFile, .extractText]

/-- Actions of the ingest router's `upsert_to_qdrant`: ensure the
collection, compute the embedding, upsert. -/
def upsert_to_qdrant_acts : List Act :=
  [.ensureCollection, .embeddingCall, .upsertPoints]

/-- Per-file action trace of the `/ingest` upload path: validate, then
`ingest_file` (which extracts the text), then the dedup lookup, then —
only on a miss — `upsert_to_qdrant`. -/
def ingest_upload_acts (valid : Bool) (cacheHit : Bool) : List Act :=
  [.validateFile] ++
  (if valid then
    ingest_file_acts ++ [.dedupLookup] ++
      (if cacheHit then [] else upsert_to_qdrant_acts)
   else [])

/-- C1 counterexample: on the knowledge-base ingestion upload path, a
request whose dedup lookup hits has nevertheless already performed text
extraction, because `ingest_file` runs before the lookup; only the
embedding and the upsert are skipped. -/
theorem ingest_cache_hit_still_extracts :
    Act.extractText ∈ ingest_upload_acts true true ∧
    Act.embeddingCall ∉ ingest_upload_acts true true ∧
    Act.upsertPoints ∉ ingest_upload_acts true true := by
  decide

/-- C1 (amended): on the summary path a dedup hit performs no text
extraction, no embedding request and no upsert; on the ingestion upload
path a dedup hit performs no embedding request and no upsert, but text
extraction has already happened before the lookup (it precedes the
`dedupLookup` action in the trace). -/
theorem dedup_skip_per_path (visionModel : Bool) :
    (Act.extractText ∉ generate_file_summary_acts true visionModel ∧
     Act.embeddingCall ∉ generate_file_summary_acts true visionModel ∧
     Act.upsertPoints ∉ generate_file_summary_acts true visionModel) ∧
    (Act.embeddingCall ∉ ingest_upload_acts true true ∧
     Act.upsertPoints ∉ ingest_upload_acts true true) ∧
    ingest_upload_acts true true =
      [.validateFile, .computeHash, .saveFile, .extractText, .dedupLookup] := by
  cases visionModel <;> decide

/-! ## Inference-call lock traces (backend/utils/chatbot.py, utils.get_embedding)

Each inference-issuing function is modelled by the ordered list of lock
and HTTP actions it performs on the shared `chatbot_instance`. -/

/-- Lock and HTTP actions around the single shared inference client. -/
inductive InferAct
  | acquireLock
  | releaseLock
  | postCompletion
  | postCompletionStream
  | postEmbedding
deriving DecidableEq

/-- `ChatBot._call_server`: one completion POST, no locking of its own. -/
def call_server_acts : List InferAct := [.postCompletion]

/-- `ThreadSafeChatBot.generate_summary_threadsafe`: `with self.lock:`
around the completion call. -/
def generate_summary_threadsafe_acts : List InferAct :=
  [.acquireLock] ++ call_server_acts ++ [.releaseLock]

/-- `ThreadSafeChatBot.ask_question_threadsafe`: `with self.lock:`
around the completion call. -/
def ask_question_threadsafe_acts : List InferAct :=
  [.acquireLock] ++ call_server_acts ++ [.releaseLock]

/-- `ThreadSafeChatBot.chat_threadsafe`: `with self.lock:` around the
completion call. -/
def chat_threadsafe_acts : List InferAct :=
  [.acquireLock] ++ call_server_acts ++ [.releaseLock]

/-- `ChatBot.stream_chat` delegates to `_call_server_streaming`; neither
method touches `self.lock`. -/
def stream_chat_acts : List InferAct := [.postCompletionStream]

/-- `utils.get_embedding` posts to the embedding endpoint once per chunk
and never references the chatbot lock. -/
def get_embedding_acts (numRequests : Nat) : List InferAct :=
  List.replicate numRequests .postEmbedding

/-- C9 counterexample: the streaming-chat path and the embedding path
issue inference requests without ever acquiring the shared lock, so two
such concurrent calls are not serialized by the client. -/
theorem unlocked_inference_calls :
    (InferAct.acquireLock ∉ stream_chat_acts ∧
      InferAct.postCompletionStream ∈ stream_chat_acts) ∧
    (InferAct.acquireLock ∉ get_embedding_acts 1 ∧
      InferAct.postEmbedding ∈ get_embedding_acts 1) := by
  decide

/-- C9 (amended): only the completion calls routed through
`ThreadSafeChatBot`'s `generate_summary_threadsafe`,
`ask_question_threadsafe` and `chat_threadsafe` wrap their inference
POST in an acquire/release of the shared mutex (so those calls are
serialized against each other); `stream_chat` and `get_embedding` issue
their requests without acquiring any lock. -/
theorem inference_lock_coverage (n : Nat) :
    generate_summary_threadsafe_acts =
      [.acquireLock, .postCompletion, .releaseLock] ∧
    ask_question_threadsafe_acts =
      [.acquireLock, .postCompletion, .releaseLock] ∧
    chat_threadsafe_acts = [.acquireLock, .postCompletion, .releaseLock] ∧
    stream_chat_acts = [.postCompletionStream] ∧
    get_embedding_acts n = List.replicate n .postEmbedding ∧
    InferAct.acquireLock ∉ stream_chat_acts ∧
    InferAct.acquireLock ∉ get_embedding_acts n := by
  refine ⟨rfl, rfl, rfl, rfl, rfl, by decide, ?_⟩
  rw [get_embedding_acts]
  intro hmem
  exact absurd (List.eq_of_mem_replicate hmem) (by decide)

end Synapses
